import Mathlib

/-!
Verification of `src/metrics/metrics_classifier.py` (vibe-ml).

The pipeline function `process_bits_per_sec`, its threshold map, and its
per-source history window are embedded directly from the source file.
The incremental decision-tree classifier itself (`bits_model`, a
`tree.HoeffdingTreeClassifier` from the `river` library, constructed at
line 6 of the source with `grace_period=1`) is library code that is not
part of the repository; it is modelled from the specification
(spec sections 4.2-4.5), as noted on each such definition.

Raw metric values and features are embedded as rationals (the Python
code uses floats; all values exercised by the claims are exact in ℚ).
-/

attribute [local semireducible] Rat.mul Rat.inv Rat.add Rat.sub

namespace VibeML

/-- An observation cell of a leaf histogram: (feature value, class label, count).
Modelled from the spec: spec 4.2 allows "histogram bins" as the per-class,
per-feature sufficient statistics of a leaf; we keep exact bins, one per
distinct (value, class) pair, in first-seen order. -/
abbrev Obs := ℚ × String × ℕ

/-- Modelled from the spec: record one labeled example into a leaf histogram
(spec 4.2 `observe`): increment the matching bin or append a fresh one. -/
def addObs : List Obs → ℚ → String → List Obs
  | [], x, c => [(x, c, 1)]
  | o :: t, x, c =>
    if o.1 = x ∧ o.2.1 = c then (o.1, o.2.1, o.2.2 + 1) :: t
    else o :: addObs t x c

/-- Total number of (weighted) examples recorded in a leaf histogram; this is
the leaf's examples-seen counter of spec 4.2. -/
def totalCount (h : List Obs) : ℕ := (h.map fun o => o.2.2).sum

/-- Class labels occurring in a leaf histogram, in first-seen order
(spec 4.2: ties in prediction are broken by first-seen class order). -/
def classesOf (h : List Obs) : List String :=
  h.foldl (fun acc o => if o.2.1 ∈ acc then acc else acc ++ [o.2.1]) []

/-- Distinct feature values occurring in a leaf histogram, in first-seen
order; these are the candidate cut points of spec 4.2. -/
def valuesOf (h : List Obs) : List ℚ :=
  h.foldl (fun acc o => if o.1 ∈ acc then acc else acc ++ [o.1]) []

/-- Number of examples of class `c` recorded in a leaf histogram. -/
def classCount (h : List Obs) (c : String) : ℕ :=
  ((h.filter fun o => decide (o.2.1 = c)).map fun o => o.2.2).sum

/-- Modelled from the spec: Gini impurity of a leaf histogram, the
"Gini-based quality" option of spec 4.2 (empty histograms never reach this
with positive weight, so the division-by-zero convention of ℚ is harmless). -/
def giniOf (h : List Obs) : ℚ :=
  1 - ((classesOf h).map fun c => ((classCount h c : ℚ) / (totalCount h : ℚ)) ^ 2).sum

/-- Modelled from the spec: quality score of splitting a leaf histogram at
cut point `v` (examples with feature ≤ `v` go left): the Gini impurity
decrease, per spec 4.2 `best_split_candidates`. -/
def splitQuality (h : List Obs) (v : ℚ) : ℚ :=
  let L := h.filter fun o => decide (o.1 ≤ v)
  let R := h.filter fun o => decide (v < o.1)
  giniOf h -
    ((totalCount L : ℚ) / (totalCount h : ℚ) * giniOf L +
     (totalCount R : ℚ) / (totalCount h : ℚ) * giniOf R)

/-- Modelled from the spec: the candidate splits of a leaf, one per distinct
observed cut point, each paired with its quality score (spec 4.2). -/
def candidates (h : List Obs) : List (ℚ × ℚ) :=
  (valuesOf h).map fun v => (v, splitQuality h v)

/-- The best and second-best values of a list of quality scores; a single
candidate is compared against the merit 0 of not splitting. -/
def top2 : List ℚ → ℚ × ℚ
  | [] => (0, 0)
  | [q] => (q, 0)
  | q :: r :: t =>
    let p := top2 (r :: t)
    if p.1 ≤ q then (q, p.1) else (p.1, max p.2 q)

/-- Modelled from the spec: rational stand-in for `ln (1 / confidence)` with
the spec's default confidence 0.05 (spec 6), so ln 20 ≈ 3. -/
def lnInvConfidence : ℚ := 3

/-- Modelled from the spec: the fixed tie-breaking tolerance of the
Hoeffding split rule (spec 4.3). -/
def tieTol : ℚ := 1 / 20

/-- Modelled from the spec: `R`, the range of the split-quality metric
(spec 4.3); 1 for Gini-based quality. -/
def qualityRange : ℚ := 1

/-- The grace period the source configures on the classifier:
`tree.HoeffdingTreeClassifier(grace_period=1)` (source line 6). -/
def grace_period : ℕ := 1

/-- The top candidate: the first candidate whose quality attains the best
quality score. -/
def chosenCut (cands : List (ℚ × ℚ)) : ℚ :=
  ((cands.find? fun c => decide (c.2 = (top2 (cands.map Prod.snd)).1)).getD (0, 0)).1

/-- Modelled from the spec: the Hoeffding-bound split decision of spec 4.3.
With top-two qualities `g1 ≥ g2` and `n` examples seen, commit to the top
candidate exactly when `g1 - g2 > epsilon` or `epsilon < tieTol`, where
`epsilon = sqrt (qualityRange^2 * lnInvConfidence / (2 * n))`; otherwise
defer.  Both comparisons are taken in squared (denominator-cleared) form so
the decision is exact rational arithmetic. -/
def shouldSplit (cands : List (ℚ × ℚ)) (n : ℕ) : Option ℚ :=
  match cands with
  | [] => none
  | _ :: _ =>
    let g := top2 (cands.map Prod.snd)
    if qualityRange ^ 2 * lnInvConfidence < (g.1 - g.2) ^ 2 * (2 * n) ∨
       qualityRange ^ 2 * lnInvConfidence < tieTol ^ 2 * (2 * n)
    then some (chosenCut cands) else none

/-- Modelled from the spec: the growing decision tree of spec 4.4 — an
internal node carries a cut on the single feature and two children; a leaf
carries its histogram statistics. -/
inductive DTree where
  | leaf (stats : List Obs)
  | node (cut : ℚ) (left right : DTree)
deriving DecidableEq

/-- Number of leaves of a tree. -/
def numLeaves : DTree → ℕ
  | .leaf _ => 1
  | .node _ l r => numLeaves l + numLeaves r

/-- Modelled from the spec: leaf prediction (spec 4.2): the class with the
highest count, ties broken by first-seen order, `none` when the leaf has
seen no labeled example. -/
def majority (h : List Obs) : Option String :=
  (classesOf h).foldl (fun acc c =>
    match acc with
    | none => some c
    | some b => if classCount h b < classCount h c then some c else some b) none

/-- Modelled from the spec: `predict_one` (spec 4.5): route the example to a
leaf (feature ≤ cut goes left) and return that leaf's majority class. -/
def predict_one : DTree → ℚ → Option String
  | .leaf h, _ => majority h
  | .node cut l r, x => if x ≤ cut then predict_one l x else predict_one r x

/-- Modelled from the spec: `learn_one` (spec 4.5): route to a leaf, record
the example, and — when the leaf's examples-seen counter is a multiple of
the grace period — run the split evaluator; on a chosen cut, replace the
leaf by an internal node with two fresh leaves.  Spec 4.4 says children
"start cold", but spec 8's end-to-end scenarios require (and the underlying
river library implements) children seeded with the class distribution on
each side of the chosen cut, so the histogram is partitioned by the cut. -/
def learn_one (grace : ℕ) : DTree → ℚ → String → DTree
  | .leaf h, x, c =>
    let h' := addObs h x c
    if totalCount h' % grace = 0 then
      match shouldSplit (candidates h') (totalCount h') with
      | some cut =>
          .node cut (.leaf (h'.filter fun o => decide (o.1 ≤ cut)))
                    (.leaf (h'.filter fun o => decide (cut < o.1)))
      | none => .leaf h'
    else .leaf h'
  | .node cut l r, x, c =>
    if x ≤ cut then .node cut (learn_one grace l x c) r
    else .node cut l (learn_one grace r x c)

/-- The initial classifier: a single empty leaf (source line 6 constructs a
fresh `HoeffdingTreeClassifier`). -/
def bits_model : DTree := .leaf []

/-- The mutable module state of the source file: the shared classifier
(source line 6), `historical_data` (source line 9; only the metric
`"bits_per_sec"` is ever used, so the inner dict is inlined), and
`thresholds` (source line 10; `none` models an absent entry). -/
structure PState where
  bits_model : DTree
  historical_data : String → List ℚ
  thresholds : String → Option ℚ

/-- The state at module load: fresh classifier, empty maps. -/
def initState : PState := ⟨bits_model, fun _ => [], fun _ => none⟩

/-- Source lines 26-28: if no threshold is recorded for `source` (and the
metric `"bits_per_sec"`), set it to the 500000 default; otherwise leave the
map unchanged. -/
def initThresholds (thr : String → Option ℚ) (source : String) : String → Option ℚ :=
  fun s => if s = source then some ((thr s).getD 500000) else thr s

/-- Source line 33: `value / min_threshold if min_threshold > 0 else 0`. -/
def relativeToMin (t v : ℚ) : ℚ := if 0 < t then v / t else 0

/-- The feature computed by `process_bits_per_sec` for `(source, value)` in
state `st`: source lines 26-33 (threshold initialization, threshold read,
ratio).  The `getD 0` mirrors `defaultdict(float)`. -/
def processFeature (st : PState) (source : String) (value : ℚ) : ℚ :=
  relativeToMin ((initThresholds st.thresholds source source).getD 0) value

/-- Source lines 52-55: append `value` to the history and `pop(0)` when the
length exceeds `window_size`. -/
def histUpdate (window_size : ℕ) (h : List ℚ) (v : ℚ) : List ℚ :=
  let h' := h ++ [v]
  if window_size < h'.length then h'.tail else h'

/-- Source lines 12-57, `process_bits_per_sec`: initialize the threshold,
derive the feature, predict when more than 5 values are already recorded in
the source's history, learn when a (truthy, i.e. non-empty) label is given,
update the history window, and return the prediction with the new state. -/
def process_bits_per_sec (st : PState) (source : String) (value : ℚ)
    (label : Option String) (window_size : ℕ) : Option String × PState :=
  let thresholds' := initThresholds st.thresholds source
  let relative_to_min := processFeature st source value
  let prediction :=
    if 5 < (st.historical_data source).length
    then predict_one st.bits_model relative_to_min else none
  let model' :=
    match label with
    | some l => if l = "" then st.bits_model
                else learn_one grace_period st.bits_model relative_to_min l
    | none => st.bits_model
  let historical' := fun s =>
    if s = source then histUpdate window_size (st.historical_data s) value
    else st.historical_data s
  (prediction, ⟨model', historical', thresholds'⟩)

/-- Fold `process_bits_per_sec` over a list of `(source, value, label)`
calls, all sharing one `window_size`. -/
def runProcess (st : PState) (calls : List (String × ℚ × Option String))
    (window_size : ℕ) : PState :=
  calls.foldl (fun acc c => (process_bits_per_sec acc c.1 c.2.1 c.2.2 window_size).2) st

/-- The training calls of the end-to-end scenario (spec 8): 10 examples of
each of (10, "bad"), (500000, "average"), (1000000, "good") on one source
with the default threshold. -/
def c1Train : List (String × ℚ × Option String) :=
  List.replicate 10 ("s", ((10 : ℚ), some "bad")) ++
  List.replicate 10 ("s", ((500000 : ℚ), some "average")) ++
  List.replicate 10 ("s", ((1000000 : ℚ), some "good"))

/-- The state after the end-to-end training calls. -/
def c1State : PState := runProcess initState c1Train 1000

/-- A state whose threshold for source `"src"` has been forced to 0
(spec 6: `set_threshold` is an external operation writing the map). -/
def c6State : PState := ⟨bits_model, fun _ => [], fun s => if s = "src" then some 0 else none⟩

set_option maxRecDepth 8000 in
/-- C1: after training the classifier on 10 examples of (value 10, "bad"),
10 of (value 500000, "average") and 10 of (value 1000000, "good") with the
default threshold 500000, a subsequent predict on value 1000000 returns
"good" and a subsequent predict on value 10 returns "bad". -/
theorem claim1_end_to_end :
    (process_bits_per_sec c1State "s" 1000000 none 1000).1 = some "good" ∧
    (process_bits_per_sec (process_bits_per_sec c1State "s" 1000000 none 1000).2
        "s" 10 none 1000).1 = some "bad" := by
  decide

/-- C2: `process_bits_per_sec` returns `none` whenever fewer than 6 values
have previously been recorded in the source's history, for every model
state, value, label and window size. -/
theorem claim2_insufficient_history (st : PState) (source : String) (value : ℚ)
    (label : Option String) (w : ℕ) (h : (st.historical_data source).length ≤ 5) :
    (process_bits_per_sec st source value label w).1 = none := by
  simp only [process_bits_per_sec]
  rw [if_neg (Nat.not_lt.mpr h)]

/-- Witness for C2: the very first call for a brand-new source returns
`none` even though a label is supplied. -/
theorem claim2_witness :
    (initState.historical_data "t").length ≤ 5 ∧
    (process_bits_per_sec initState "t" 7 (some "good") 1000).1 = none :=
  ⟨by decide, claim2_insufficient_history initState "t" 7 (some "good") 1000 (by decide)⟩

/-- C3 counterexample: the code performs no clamping and no rejection of
negative raw values: on a brand-new source, value -100 produces the
negative feature -100/500000, and the labeled call still updates the
classifier's statistics with it. -/
theorem claim3_counterexample :
    processFeature initState "src" (-100) < 0 ∧
    (process_bits_per_sec initState "src" (-100) (some "bad") 1000).2.bits_model ≠
      initState.bits_model := by
  decide

/-- C3 amended: the Feature/Threshold Layer applies no clamping or
rejection: whenever the (initialized) threshold `t` is positive and the raw
value `v` is negative, the derived feature is exactly `v / t`, which is
negative, and a labeled call feeds that negative feature unchanged into the
classifier's learn step. -/
theorem claim3_no_clamping (st : PState) (source : String) (v t : ℚ) (w : ℕ)
    (hv : v < 0) (ht : (initThresholds st.thresholds source source).getD 0 = t)
    (htpos : 0 < t) :
    processFeature st source v = v / t ∧ processFeature st source v < 0 ∧
    (process_bits_per_sec st source v (some "bad") w).2.bits_model =
      learn_one grace_period st.bits_model (processFeature st source v) "bad" := by
  have hf : processFeature st source v = v / t := by
    rw [processFeature, ht, relativeToMin, if_pos htpos]
  exact ⟨hf, hf ▸ div_neg_of_neg_of_pos hv htpos, rfl⟩

/-- Witness for C3 amended: the concrete negative value -100 on a
brand-new source with the default threshold. -/
theorem claim3_witness :
    ((-100 : ℚ) < 0) ∧
    (initThresholds initState.thresholds "src" "src").getD 0 = 500000 ∧
    ((0 : ℚ) < 500000) ∧
    (processFeature initState "src" (-100) = -100 / 500000 ∧
      processFeature initState "src" (-100) < 0 ∧
      (process_bits_per_sec initState "src" (-100) (some "bad") 1000).2.bits_model =
        learn_one grace_period initState.bits_model
          (processFeature initState "src" (-100)) "bad") :=
  ⟨by norm_num, by decide, by norm_num,
    claim3_no_clamping initState "src" (-100) 500000 1000 (by norm_num) (by decide) (by norm_num)⟩

/-- C4: the prediction returned by `process_bits_per_sec` does not depend on
the label supplied in the same call: it equals the prediction of the
label-free call, and is computed from the model state `st.bits_model` from
before this call's learn step. -/
theorem claim4_predict_before_learn (st : PState) (source : String) (v : ℚ)
    (l : String) (w : ℕ) :
    (process_bits_per_sec st source v (some l) w).1 =
      (process_bits_per_sec st source v none w).1 ∧
    (process_bits_per_sec st source v (some l) w).1 =
      (if 5 < (st.historical_data source).length
       then predict_one st.bits_model (processFeature st source v) else none) :=
  ⟨rfl, rfl⟩

/-- C5: when no threshold is recorded for a source, the call installs the
default 500000 into the threshold map, and the feature computed for
value 500000 on such a brand-new source is `relative_to_min = 1`. -/
theorem claim5_default_threshold (st : PState) (source : String) (v : ℚ)
    (label : Option String) (w : ℕ) (h : st.thresholds source = none) :
    (process_bits_per_sec st source v label w).2.thresholds source = some 500000 ∧
    processFeature st source 500000 = 1 := by
  constructor
  · show initThresholds st.thresholds source source = some 500000
    simp [initThresholds, h]
  · simp [processFeature, initThresholds, relativeToMin, h]

/-- Witness for C5: a brand-new source in the initial state. -/
theorem claim5_witness :
    initState.thresholds "new_source" = none ∧
    ((process_bits_per_sec initState "new_source" 7 none 1000).2.thresholds
        "new_source" = some 500000 ∧
      processFeature initState "new_source" 500000 = 1) :=
  ⟨rfl, claim5_default_threshold initState "new_source" 7 none 1000 rfl⟩

/-- C6: for a source whose threshold is recorded as `t`, the derived feature
is `value / t` when `0 < t` and exactly `0` otherwise — a total function,
with no error on a zero threshold. -/
theorem claim6_division_guard (st : PState) (source : String) (v t : ℚ)
    (h : st.thresholds source = some t) :
    processFeature st source v = if 0 < t then v / t else 0 := by
  simp [processFeature, initThresholds, relativeToMin, h]

/-- Witness for C6: with the threshold forced to 0, processing value 100
derives `relative_to_min = 0`, not an error. -/
theorem claim6_witness :
    c6State.thresholds "src" = some 0 ∧ processFeature c6State "src" 100 = 0 :=
  ⟨rfl, by rw [claim6_division_guard c6State "src" 100 0 rfl]; norm_num⟩

/-- The last `w` elements of a list. -/
def takeRight (w : ℕ) (l : List ℚ) : List ℚ := l.drop (l.length - w)

/-- `histUpdate` keeps the history within the window capacity. -/
theorem histUpdate_length_le (w : ℕ) (h : List ℚ) (v : ℚ) (hl : h.length ≤ w) :
    (histUpdate w h v).length ≤ w := by
  simp only [histUpdate]
  split
  · simp only [List.length_tail, List.length_append, List.length_singleton]
    omega
  · simp only [List.length_append, List.length_singleton] at *
    omega

/-- Within capacity, `histUpdate` is "append, then keep the last `w`". -/
theorem histUpdate_eq_takeRight (w : ℕ) (h : List ℚ) (v : ℚ) (hl : h.length ≤ w) :
    histUpdate w h v = takeRight w (h ++ [v]) := by
  simp only [histUpdate, takeRight]
  split
  · have e : (h ++ [v]).length - w = 1 := by
      simp only [List.length_append, List.length_singleton] at *
      omega
    rw [e, List.drop_one]
  · have e : (h ++ [v]).length - w = 0 := by
      simp only [List.length_append, List.length_singleton] at *
      omega
    rw [e, List.drop_zero]

/-- Keeping the last `w`, appending, and keeping the last `w` again is the
same as appending and keeping the last `w`. -/
theorem takeRight_append_takeRight (w : ℕ) (l vs : List ℚ) :
    takeRight w (takeRight w l ++ vs) = takeRight w (l ++ vs) := by
  simp only [takeRight, List.length_append, List.length_drop]
  rcases le_or_lt l.length w with hle | hlt
  · rw [Nat.sub_eq_zero_of_le hle, List.drop_zero]
    congr 1
  · have e1 : l.length - (l.length - w) + vs.length - w = vs.length := by omega
    rw [e1, ← List.drop_append_of_le_length (Nat.sub_le l.length w), List.drop_drop]
    have e2 : l.length - w + vs.length = l.length + vs.length - w := by omega
    rw [e2]

/-- Folding `histUpdate` from within capacity keeps exactly the last `w`
pushed values. -/
theorem foldl_histUpdate_eq (w : ℕ) (vs : List ℚ) : ∀ h : List ℚ, h.length ≤ w →
    vs.foldl (histUpdate w) h = takeRight w (h ++ vs) := by
  induction vs with
  | nil =>
    intro h hl
    simp only [List.foldl_nil, List.append_nil, takeRight, Nat.sub_eq_zero_of_le hl,
      List.drop_zero]
  | cons v vs ih =>
    intro h hl
    rw [List.foldl_cons, ih _ (histUpdate_length_le w h v hl),
      histUpdate_eq_takeRight w h v hl, takeRight_append_takeRight]
    congr 1
    simp

/-- One call updates the calling source's history by `histUpdate`. -/
theorem process_historical_self (st : PState) (source : String) (v : ℚ)
    (label : Option String) (w : ℕ) :
    (process_bits_per_sec st source v label w).2.historical_data source =
      histUpdate w (st.historical_data source) v := by
  simp [process_bits_per_sec]

/-- Pushing a list of unlabeled values into one source folds `histUpdate`
over that source's history. -/
theorem runProcess_single_source (w : ℕ) (s : String) (vs : List ℚ) : ∀ st : PState,
    (runProcess st (vs.map fun v => (s, v, none)) w).historical_data s =
      vs.foldl (histUpdate w) (st.historical_data s) := by
  induction vs with
  | nil => intro st; rfl
  | cons v vs ih =>
    intro st
    show (runProcess (process_bits_per_sec st s v none w).2
        (vs.map fun v => (s, v, none)) w).historical_data s = _
    rw [ih, process_historical_self]
    rfl

/-- Every source's history stays within the window capacity across any
sequence of calls. -/
theorem runProcess_length_le (w : ℕ) (calls : List (String × ℚ × Option String)) :
    ∀ st : PState, (∀ s, (st.historical_data s).length ≤ w) →
    ∀ s, ((runProcess st calls w).historical_data s).length ≤ w := by
  induction calls with
  | nil => intro st h s; exact h s
  | cons c cs ih =>
    intro st h s
    refine ih _ (fun s' => ?_) s
    show ((if s' = c.1 then histUpdate w (st.historical_data s') c.2.1
        else st.historical_data s')).length ≤ w
    split
    · exact histUpdate_length_le w _ _ (h s')
    · exact h s'

/-- C7: starting from the initial state, every source's history holds at
most `window_size` values after any sequence of calls; and pushing
`window_size + 5` values into one source's history leaves exactly the last
`window_size` of them, in FIFO order, with the oldest 5 evicted. -/
theorem claim7_window_fifo (w : ℕ) (calls : List (String × ℚ × Option String))
    (s : String) (vs : List ℚ) (hlen : vs.length = w + 5) :
    ((runProcess initState calls w).historical_data s).length ≤ w ∧
    (runProcess initState (vs.map fun v => (s, v, none)) w).historical_data s =
      vs.drop 5 := by
  constructor
  · exact runProcess_length_le w calls initState (fun _ => by simp [initState]) s
  · rw [runProcess_single_source]
    show vs.foldl (histUpdate w) [] = vs.drop 5
    rw [foldl_histUpdate_eq w vs [] (by simp), takeRight, List.nil_append, hlen]
    congr 1
    omega

/-- Witness for C7: window size 2 and 7 pushed values keep the last 2. -/
theorem claim7_witness :
    ([(1 : ℚ), 2, 3, 4, 5, 6, 7].length = 2 + 5) ∧
    (((runProcess initState [] 2).historical_data "a").length ≤ 2 ∧
      (runProcess initState ([(1 : ℚ), 2, 3, 4, 5, 6, 7].map fun v => ("a", v, none))
          2).historical_data "a" = [(1 : ℚ), 2, 3, 4, 5, 6, 7].drop 5) :=
  ⟨by decide, claim7_window_fifo 2 [] "a" [1, 2, 3, 4, 5, 6, 7] (by decide)⟩

/-- C8: a label-free call never touches the classifier: any sequence of
predict-only calls leaves the model state identical. -/
theorem claim8_predict_is_pure (st : PState) (calls : List (String × ℚ)) (w : ℕ) :
    (calls.foldl (fun acc c => (process_bits_per_sec acc c.1 c.2 none w).2) st).bits_model
      = st.bits_model := by
  induction calls generalizing st with
  | nil => rfl
  | cons c t ih => exact ih ((process_bits_per_sec st c.1 c.2 none w).2)

/-- One `learn_one` call leaves the number of leaves unchanged or, on a
split, increases it by exactly one. -/
theorem numLeaves_learn_one (g : ℕ) (t : DTree) (x : ℚ) (c : String) :
    numLeaves t ≤ numLeaves (learn_one g t x c) ∧
    numLeaves (learn_one g t x c) ≤ numLeaves t + 1 := by
  induction t with
  | leaf h =>
    simp only [learn_one]
    split
    · split <;> simp [numLeaves]
    · simp [numLeaves]
  | node cut l r ihl ihr =>
    simp only [learn_one]
    split <;> simp only [numLeaves] <;> omega

/-- C9: over any sequence of learn calls the number of leaves is
non-decreasing, and each single learn call grows the leaf count by at most
one (a split replaces one leaf with exactly two fresh leaves, and no split
is ever undone). -/
theorem claim9_monotonic_leaf_growth (g : ℕ) (t : DTree) (obs : List (ℚ × String)) :
    numLeaves t ≤ numLeaves (obs.foldl (fun acc o => learn_one g acc o.1 o.2) t) ∧
    ∀ x c, numLeaves (learn_one g t x c) ≤ numLeaves t + 1 := by
  constructor
  · induction obs generalizing t with
    | nil => exact le_refl _
    | cons o rest ih => exact le_trans (numLeaves_learn_one g t o.1 o.2).1 (ih _)
  · exact fun x c => (numLeaves_learn_one g t x c).2

/-- The denominator-cleared rational comparison used by `shouldSplit` is
equivalent to the real square-root comparison of the Hoeffding bound. -/
theorem hoeffding_sq_iff (a K : ℚ) (n : ℕ) (hn : 0 < n) (ha : 0 ≤ a) (hK : 0 < K) :
    K < a ^ 2 * (2 * n) ↔ Real.sqrt ((K : ℝ) / (2 * n)) < (a : ℝ) := by
  have h2n : (0 : ℝ) < 2 * (n : ℝ) := by positivity
  rcases eq_or_lt_of_le ha with h0 | hpos
  · rw [← h0]
    constructor
    · intro hcon
      exfalso
      have : (0 : ℚ) ^ 2 * (2 * n) = 0 := by ring
      rw [this] at hcon
      exact absurd hcon (not_lt.mpr hK.le)
    · intro hcon
      exfalso
      have : ((0 : ℚ) : ℝ) = 0 := by norm_num
      rw [this] at hcon
      exact absurd hcon (not_lt.mpr (Real.sqrt_nonneg _))
  · rw [Real.sqrt_lt' (by exact_mod_cast hpos), div_lt_iff₀ h2n]
    constructor
    · intro h
      exact_mod_cast h
    · intro h
      exact_mod_cast h

/-- C10: the split decision follows the Hoeffding-bound rule: with top two
candidate qualities `g1 ≥ g2` over a nonempty candidate list, `shouldSplit`
commits to the top candidate exactly when
`g1 - g2 > sqrt (qualityRange^2 * lnInvConfidence / (2 * n))` or that bound
is below the fixed tie-breaking tolerance, and defers otherwise; moreover,
inside `learn_one` the evaluation runs only when the leaf's examples-seen
counter is a multiple of the grace period. -/
theorem claim10_hoeffding_rule (cands : List (ℚ × ℚ)) (n : ℕ) (hn : 0 < n)
    (hne : cands ≠ [])
    (hord : (top2 (cands.map Prod.snd)).2 ≤ (top2 (cands.map Prod.snd)).1) :
    (shouldSplit cands n = some (chosenCut cands) ↔
      (((top2 (cands.map Prod.snd)).1 : ℝ) - ((top2 (cands.map Prod.snd)).2 : ℝ) >
          Real.sqrt ((qualityRange : ℝ) ^ 2 * (lnInvConfidence : ℝ) / (2 * n)) ∨
        Real.sqrt ((qualityRange : ℝ) ^ 2 * (lnInvConfidence : ℝ) / (2 * n)) <
          (tieTol : ℝ))) ∧
    (shouldSplit cands n = none ∨ shouldSplit cands n = some (chosenCut cands)) ∧
    (∀ g h x c, totalCount (addObs h x c) % g ≠ 0 →
      learn_one g (DTree.leaf h) x c = DTree.leaf (addObs h x c)) := by
  have hK : (0 : ℚ) < qualityRange ^ 2 * lnInvConfidence := by
    norm_num [qualityRange, lnInvConfidence]
  have htol : (0 : ℚ) ≤ tieTol := by norm_num [tieTol]
  rcases cands with _ | ⟨c, cs⟩
  · exact absurd rfl hne
  · have hsub : (0 : ℚ) ≤ (top2 ((c :: cs).map Prod.snd)).1 - (top2 ((c :: cs).map Prod.snd)).2 :=
      sub_nonneg.mpr hord
    have iff1 := hoeffding_sq_iff _ _ n hn hsub hK
    have iff2 := hoeffding_sq_iff tieTol _ n hn htol hK
    have castK : ((qualityRange : ℝ)) ^ 2 * (lnInvConfidence : ℝ) =
        ((qualityRange ^ 2 * lnInvConfidence : ℚ) : ℝ) := by push_cast; ring
    have castSub : ((top2 ((c :: cs).map Prod.snd)).1 : ℝ) -
          ((top2 ((c :: cs).map Prod.snd)).2 : ℝ) =
        (((top2 ((c :: cs).map Prod.snd)).1 - (top2 ((c :: cs).map Prod.snd)).2 : ℚ) : ℝ) := by
      push_cast; ring
    refine ⟨?_, ?_, ?_⟩
    · show (if qualityRange ^ 2 * lnInvConfidence <
            ((top2 ((c :: cs).map Prod.snd)).1 - (top2 ((c :: cs).map Prod.snd)).2) ^ 2 * (2 * n) ∨
            qualityRange ^ 2 * lnInvConfidence < tieTol ^ 2 * (2 * n)
          then some (chosenCut (c :: cs)) else none) = some (chosenCut (c :: cs)) ↔ _
      rw [castK, castSub]
      split
      · rename_i hP
        exact iff_of_true rfl (Or.imp iff1.mp iff2.mp hP)
      · rename_i hP
        refine iff_of_false (by simp) (fun hQ => hP ?_)
        exact Or.imp iff1.mpr iff2.mpr hQ
    · show (if qualityRange ^ 2 * lnInvConfidence <
            ((top2 ((c :: cs).map Prod.snd)).1 - (top2 ((c :: cs).map Prod.snd)).2) ^ 2 * (2 * n) ∨
            qualityRange ^ 2 * lnInvConfidence < tieTol ^ 2 * (2 * n)
          then some (chosenCut (c :: cs)) else none) = none ∨
        (if qualityRange ^ 2 * lnInvConfidence <
            ((top2 ((c :: cs).map Prod.snd)).1 - (top2 ((c :: cs).map Prod.snd)).2) ^ 2 * (2 * n) ∨
            qualityRange ^ 2 * lnInvConfidence < tieTol ^ 2 * (2 * n)
          then some (chosenCut (c :: cs)) else none) = some (chosenCut (c :: cs))
      split
      · right; rfl
      · left; rfl
    · intro g h x c hxc
      simp [learn_one, hxc]

/-- Witness for C10: a concrete candidate list and sample count on which
the rule commits. -/
theorem claim10_witness :
    (0 < 13) ∧ ([((1 : ℚ), (1 : ℚ) / 2), (2, 0)] ≠ []) ∧
    ((top2 ([((1 : ℚ), (1 : ℚ) / 2), (2, 0)].map Prod.snd)).2 ≤
      (top2 ([((1 : ℚ), (1 : ℚ) / 2), (2, 0)].map Prod.snd)).1) ∧
    ((shouldSplit [((1 : ℚ), (1 : ℚ) / 2), (2, 0)] 13 =
        some (chosenCut [((1 : ℚ), (1 : ℚ) / 2), (2, 0)]) ↔
      (((top2 ([((1 : ℚ), (1 : ℚ) / 2), (2, 0)].map Prod.snd)).1 : ℝ) -
          ((top2 ([((1 : ℚ), (1 : ℚ) / 2), (2, 0)].map Prod.snd)).2 : ℝ) >
          Real.sqrt ((qualityRange : ℝ) ^ 2 * (lnInvConfidence : ℝ) / (2 * 13)) ∨
        Real.sqrt ((qualityRange : ℝ) ^ 2 * (lnInvConfidence : ℝ) / (2 * 13)) <
          (tieTol : ℝ))) ∧
    (shouldSplit [((1 : ℚ), (1 : ℚ) / 2), (2, 0)] 13 = none ∨
      shouldSplit [((1 : ℚ), (1 : ℚ) / 2), (2, 0)] 13 =
        some (chosenCut [((1 : ℚ), (1 : ℚ) / 2), (2, 0)])) ∧
    (∀ g h x c, totalCount (addObs h x c) % g ≠ 0 →
      learn_one g (DTree.leaf h) x c = DTree.leaf (addObs h x c))) :=
  ⟨by decide, by decide, by decide,
    claim10_hoeffding_rule [((1 : ℚ), (1 : ℚ) / 2), (2, 0)] 13 (by decide) (by decide) (by decide)⟩

end VibeML
